import Mathlib

/-!
Verification of the CSV ingestion pipeline of the pitching dashboard
(src/pitch_data_upload.py) against its specification.

The Python functions are shallowly embedded as executable Lean
definitions.  Python values that can appear in a pandas row are modelled
by `PyVal` (finite numbers as exact rationals, strings, NaN); a missing
key or Python `None` is modelled by `Option.none`.  Python float
arithmetic is modelled by exact rational arithmetic; IEEE rounding
(binary doubles cannot represent 0.3 exactly, so for instance
`1.0 - 0.3 - 0.3` prints as 0.3999999999999999 rather than 0.4) is
abstracted to the exact decimal values the spec reasons with.
-/

/-- ASCII whitespace, as stripped by Python `str.strip` / `int` / `float`
(space, tab, newline, carriage return, vertical tab, form feed). -/
def wsp (c : Char) : Bool :=
  c == ' ' || c == '\t' || c == '\n' || c == '\r' || c == '\x0b' || c == '\x0c'

/-- Model of Python `str.lower` on one character (ASCII range; the
letters appearing in roster names and vendor codes). -/
def lowChar (c : Char) : Char :=
  if 65 ≤ c.toNat ∧ c.toNat ≤ 90 then Char.ofNat (c.toNat + 32) else c

/-- Model of Python `str.upper` on one character (ASCII range). -/
def upChar (c : Char) : Char :=
  if 97 ≤ c.toNat ∧ c.toNat ≤ 122 then Char.ofNat (c.toNat - 32) else c

/-- Strip leading and trailing whitespace from a character list:
model of Python `str.strip()`. -/
def trimL (l : List Char) : List Char :=
  ((l.dropWhile wsp).reverse.dropWhile wsp).reverse

/-- Model of Python `str.strip()`. -/
def trimS (s : String) : String := ⟨trimL s.data⟩

/-- Model of Python `str.lower()`. -/
def lowerS (s : String) : String := ⟨s.data.map lowChar⟩

/-- Decide whether `needle` is a prefix of `hay`. -/
def prefixCheck : List Char → List Char → Bool
  | [], _ => true
  | _ :: _, [] => false
  | a :: as, b :: bs => a == b && prefixCheck as bs

/-- Decide whether `needle` occurs contiguously inside `hay`:
model of the Python `in` operator on strings. -/
def infixCheck (needle : List Char) : List Char → Bool
  | [] => prefixCheck needle []
  | hay@(_ :: t) => prefixCheck needle hay || infixCheck needle t

/-- Model of Python `sub in s` for strings. -/
def subStr (needle hay : String) : Bool := infixCheck needle.data hay.data

/-- Split a character list at every occurrence of `c`:
model of Python `str.split(c)` for a one-character separator. -/
def splitOnChar (c : Char) : List Char → List (List Char)
  | [] => [[]]
  | x :: xs =>
    if x == c then [] :: splitOnChar c xs
    else
      match splitOnChar c xs with
      | [] => [[x]]
      | p :: ps => (x :: p) :: ps

/-- Value of an ASCII digit, `none` on any other character. -/
def digitVal (c : Char) : Option Nat :=
  if 48 ≤ c.toNat ∧ c.toNat ≤ 57 then some (c.toNat - 48) else none

/-- Read a base-10 numeral; `none` as soon as a non-digit appears.
The empty list reads as `0`; callers check non-emptiness. -/
def digitsToNat (l : List Char) : Option Nat :=
  l.foldl (fun acc c => acc.bind fun a => (digitVal c).map fun d => a * 10 + d) (some 0)

/-- Model of Python `int(str)`: strip whitespace, optional sign, then a
non-empty run of digits.  (Underscore separators are not modelled; no
input in this development contains them.) -/
def pyIntL (l : List Char) : Option Int :=
  match trimL l with
  | [] => none
  | c :: rest =>
    let (sgn, ds) : Int × List Char :=
      if c == '-' then (-1, rest) else if c == '+' then (1, rest) else (1, c :: rest)
    match ds with
    | [] => none
    | _ => (digitsToNat ds).map fun n => sgn * (n : Int)

/-- Model of Python `float(str)` on the decimal-literal fragment:
strip whitespace, optional sign, digits with at most one decimal point
and at least one digit.  (Exponents and the inf/nan literals are not
modelled; no input in this development uses them.)  The result is the
exact rational value. -/
def pyFloatL (l : List Char) : Option ℚ :=
  match trimL l with
  | [] => none
  | c :: rest =>
    let (sgn, body) : ℚ × List Char :=
      if c == '-' then (-1, rest) else if c == '+' then (1, rest) else (1, c :: rest)
    match splitOnChar '.' body with
    | [ip] =>
      match ip with
      | [] => none
      | _ => (digitsToNat ip).map fun n => sgn * (n : ℚ)
    | [ip, fp] =>
      if ip.isEmpty && fp.isEmpty then none
      else
        match digitsToNat ip, digitsToNat fp with
        | some n, some f => some (sgn * ((n : ℚ) + (f : ℚ) / (10 : ℚ) ^ fp.length))
        | _, _ => none
    | _ => none

/-- Floor of a rational as an integer. -/
def ratFloor (q : ℚ) : ℤ := ⌊q⌋

/-- Model of Python `x % y` for a positive divisor:
`x - y * floor (x / y)`. -/
def pymod (x y : ℚ) : ℚ := x - y * (ratFloor (x / y) : ℚ)

/-- A value stored in a pandas row cell: a finite number (modelled
exactly as a rational), a string, or NaN.  Python `None` / a missing
column is modelled by `Option.none` around `PyVal`. -/
inductive PyVal where
  | vnum (q : ℚ)
  | vstr (s : String)
  | vnan
deriving DecidableEq

/-- Python truthiness of a row value: `0` and `""` are falsy, NaN is
truthy. -/
def truthyV : PyVal → Bool
  | .vnum q => q != 0
  | .vstr s => s != ""
  | .vnan => true

/-- Python truthiness with `None` (modelled as `none`) falsy. -/
def optTruthy : Option PyVal → Bool
  | none => false
  | some v => truthyV v

/-- Model of Python `a or b`: `a` if truthy, otherwise `b`. -/
def pyOr (a b : Option PyVal) : Option PyVal :=
  if optTruthy a then a else b

/-- Model of `pd.notna`: false on `None` and NaN, true otherwise. -/
def notnaO : Option PyVal → Bool
  | none => false
  | some .vnan => false
  | some _ => true

/-- A pandas row, modelled as an association list from column name to
cell value; `row.get(k)` is the first binding of `k`, `none` if absent. -/
def Row := List (String × PyVal)

/-- Model of `row.get(k)`. -/
def rowGet (row : Row) (k : String) : Option PyVal :=
  List.lookup k row

/-!
Player matcher (`match_player_name`, src/pitch_data_upload.py lines
125-216).  A roster entry is a dict selected from the players table;
besides `player_id`, `first_name` and `last_name` it carries the
vendor-specific external-id columns (`rapsodo_player_id`, ...), modelled
here as the association list `ids` so that the dynamic field access
`player.get(f"{data_source.lower()}_player_id")` can be embedded
directly. -/
structure Player where
  player_id : Nat
  first_name : String
  last_name : String
  ids : List (String × String)
deriving DecidableEq

/-- One entry of the matcher's `matches` list: the dict
`{player_id, method, confidence, player}` built for each name rule. -/
structure MatchRec where
  player_id : Nat
  method : String
  confidence : String
  player : Player
deriving DecidableEq

/-- The matcher's returned pair `(player_id, match_info)`.  The Python
dict only gains the keys `has_duplicates` / `all_matches` in the
duplicate branch; their absence is modelled as `false` / `[]`.  (In the
external-id branch the dict also lacks a `player_id` key; the `info`
record here repeats the id of the matched player, which is the value
returned in the tuple's first component.) -/
structure MatchResult where
  player_id : Nat
  info : MatchRec
  has_duplicates : Bool
  all_matches : List MatchRec
deriving DecidableEq

/-- The confidence ranking `{'High': 3, 'Medium': 2, 'Low': 1}` used to
pick the best of several matches (only these three strings are ever
constructed). -/
def confScore (c : String) : Nat :=
  if c = "High" then 3 else if c = "Medium" then 2 else 1

/-- The body of the matcher's per-player loop: the elif chain of the
four name rules (exact, last name, reversed, contains), `none` when no
rule fires. -/
def classify (name : String) (p : Player) : Option MatchRec :=
  let full := lowerS (p.first_name ++ " " ++ p.last_name)
  let fn := lowerS p.first_name
  let ln := lowerS p.last_name
  if name = full then some ⟨p.player_id, "Exact Name", "High", p⟩
  else if name = ln then some ⟨p.player_id, "Last Name", "Medium", p⟩
  else if name = ln ++ " " ++ fn then some ⟨p.player_id, "Name (Reversed)", "High", p⟩
  else if subStr ln name || subStr name full then
    some ⟨p.player_id, "Partial Match", "Low", p⟩
  else none

/-- The `matches` list accumulated over the roster, in roster order. -/
def collectMatches (name : String) (ps : List Player) : List MatchRec :=
  ps.filterMap (classify name)

/-- Model of `max(matches, key=confidence score)`: Python's `max`
returns the first element attaining the maximal key, which is computed
here by recursion (keep the current element unless a strictly later
element scores strictly higher... i.e. prefer the earlier element on
ties). -/
def firstMax (m : MatchRec) : List MatchRec → MatchRec
  | [] => m
  | x :: xs =>
    let r := firstMax x xs
    if confScore m.confidence < confScore r.confidence then r else m

/-- The external-id priority scan: under `if external_id and
data_source:` (Python truthiness: `None` and the empty string are
falsy), return the first roster player whose
`{data_source.lower()}_player_id` field equals `str(external_id)`. -/
def extScan (ps : List Player) (eid ds : Option String) : Option Player :=
  match eid, ds with
  | some e, some d =>
    if e ≠ "" ∧ d ≠ "" then
      ps.find? fun p => List.lookup (lowerS d ++ "_player_id") p.ids == some e
    else none
  | _, _ => none

/-- Embedding of `match_player_name(pitcher_name, players_list,
external_id, data_source)`.  `pitcher_name = none` models Python `None`
or NaN; the tuple `(None, None)` is modelled as `none`. -/
def match_player_name (pn : Option String) (ps : List Player)
    (eid ds : Option String) : Option MatchResult :=
  match pn with
  | none => none
  | some s =>
    if s = "" then none
    else
      match extScan ps eid ds with
      | some p => some ⟨p.player_id, ⟨p.player_id, "External ID", "High", p⟩, false, []⟩
      | none =>
        let name := lowerS (trimS s)
        match collectMatches name ps with
        | [] => none
        | [m] => some ⟨m.player_id, m, false, []⟩
        | m :: m2 :: rest =>
          let b := firstMax m (m2 :: rest)
          some ⟨b.player_id, b, true, m :: m2 :: rest⟩

/-!
Tilt conversion (`tilt_to_degrees`, lines 389-416) and pitch type
standardization (`standardize_pitch_type`, lines 366-383). -/

/-- The clock branch of `tilt_to_degrees`: executed when the stripped
string contains a colon.  `int()` failures on either part raise and are
caught by the surrounding handler, yielding `none`. -/
def clockBranch (t : List Char) : Option ℚ :=
  if (':') ∈ t then
    match splitOnChar ':' t with
    | p0 :: p1 :: _ =>
      match pyIntL p0, pyIntL p1 with
      | some h, some m => some (pymod ((Int.emod h 12 : ℤ) * 30 + (m : ℚ) / 2) 360)
      | _, _ => none
    | _ => none
  else none

/-- The string path of `tilt_to_degrees`: strip, try `float()` first,
otherwise the clock branch (a second `float()` attempt on a colon-free
string fails again, so the clock branch also covers the final
`return float(tilt_str)`). -/
def tiltStr (s : String) : Option ℚ :=
  let t := trimL s.data
  match pyFloatL t with
  | some q => some q
  | none => clockBranch t

/-- Embedding of `tilt_to_degrees(tilt_str)`.  `none` models Python
`None`; a numeric argument passes through `float(str(x))` unchanged;
every parse failure is caught by the function's own handler, so the
embedding is total and returns `none` where the code returns `None`. -/
def tilt_to_degrees : Option PyVal → Option ℚ
  | none => none
  | some .vnan => none
  | some (.vnum q) => some q
  | some (.vstr s) => if s = "" then none else tiltStr s

/-- The `PITCH_TYPE_MAP` synonym table, in source order (all keys are
distinct, so association-list lookup agrees with the Python dict). -/
def PITCH_TYPE_MAP : List (String × String) :=
  [("FF", "4FB"), ("FA", "4FB"), ("4-SEAM", "4FB"), ("FASTBALL", "4FB"),
   ("4FB", "4FB"), ("4SEAM", "4FB"),
   ("FT", "2FB"), ("SI", "SI"), ("2-SEAM", "2FB"), ("2FB", "2FB"),
   ("SINKER", "SI"), ("2SEAM", "2FB"),
   ("FC", "CT"), ("CUTTER", "CT"), ("CT", "CT"),
   ("CU", "CB"), ("CURVE", "CB"), ("CURVEBALL", "CB"), ("CB", "CB"),
   ("SL", "SL"), ("SLIDER", "SL"),
   ("CH", "CH"), ("CHANGEUP", "CH"), ("CHANGE", "CH"),
   ("FS", "SPL"), ("SPLIT", "SPL"), ("SPLITTER", "SPL"), ("SPL", "SPL"),
   ("KN", "KN"), ("KNUCKLEBALL", "KN"),
   ("SB", "SB"), ("SCREWBALL", "SB")]

/-- The normalization `str(x).strip().upper().replace(' ', '')` at the
character-list level (`replace(' ', '')` removes every space, i.e.
filters them out). -/
def normChars (l : List Char) : List Char :=
  ((trimL l).map upChar).filter fun c => c != ' '

/-- String-level normalization used by `standardize_pitch_type`. -/
def pyNorm (s : String) : String := ⟨normChars s.data⟩

/-- Embedding of `standardize_pitch_type(pitch_type)`: `None`/NaN
(modelled as `none`) and the empty string yield `None`; otherwise the
normalized code is looked up in the synonym table and passes through
unchanged when absent. -/
def standardize_pitch_type : Option String → Option String
  | none => none
  | some s =>
    if s = "" then none
    else
      let t := pyNorm s
      match List.lookup t PITCH_TYPE_MAP with
      | some v => some v
      | none => some t

/-!
Vendor field mappers (`map_rapsodo_fields` lines 509-542,
`map_pitchlogic_fields` lines 544-587).  Each `data[...] = row.get(a) or
row.get(b) or ...` line is embedded with `pyOr`; the tilt conversions
and the conditionally assigned keys follow the source. -/

/-- The dict built by `map_rapsodo_fields`. -/
structure RapsodoData where
  release_speed : Option PyVal
  spin_rate : Option PyVal
  spin_axis : Option PyVal
  spin_efficiency : Option PyVal
  horizontal_break : Option PyVal
  induced_vertical_break : Option PyVal
  vertical_break : Option PyVal
  release_height : Option PyVal
  release_side : Option PyVal
  release_extension : Option PyVal
  plate_location_x : Option PyVal
  plate_location_z : Option PyVal
  true_spin : Option PyVal
  break_length : Option PyVal
  break_y : Option PyVal
  spin_direction : Option PyVal
  exit_velocity : Option PyVal
  launch_angle : Option PyVal
deriving DecidableEq

/-- Embedding of `map_rapsodo_fields(row)`.  The `Tilt` override of
`spin_axis` runs when the column is present and not NA; its numeric
result re-enters the dict as a number. -/
def map_rapsodo_fields (row : Row) : RapsodoData where
  release_speed := pyOr (rowGet row "Velocity") (rowGet row "RelSpeed")
  spin_rate := rowGet row "SpinRate"
  spin_axis :=
    if notnaO (rowGet row "Tilt") then (tilt_to_degrees (rowGet row "Tilt")).map .vnum
    else rowGet row "SpinAxis"
  spin_efficiency := rowGet row "SpinEff"
  horizontal_break := rowGet row "HorzBreak"
  induced_vertical_break := pyOr (rowGet row "InducedVertBreak") (rowGet row "iVB")
  vertical_break := rowGet row "VertBreak"
  release_height := rowGet row "RelHeight"
  release_side := rowGet row "RelSide"
  release_extension := rowGet row "Extension"
  plate_location_x := rowGet row "PlateLocSide"
  plate_location_z := rowGet row "PlateLocHeight"
  true_spin := rowGet row "TrueSpin"
  break_length := rowGet row "BreakLength"
  break_y := rowGet row "BreakY"
  spin_direction := rowGet row "SpinDirection"
  exit_velocity := rowGet row "ExitSpeed"
  launch_angle := rowGet row "Angle"

/-- The dict built by `map_pitchlogic_fields`; `spin_axis`, `arm_slot`
and `relative_spin_direction` hold floats (or are None / absent). -/
structure PitchLogicData where
  release_speed : Option PyVal
  spin_rate : Option PyVal
  spin_axis : Option ℚ
  horizontal_break : Option PyVal
  vertical_break : Option PyVal
  release_height : Option PyVal
  release_side : Option PyVal
  arm_slot : Option ℚ
  gyro_degree : Option PyVal
  relative_spin_direction : Option ℚ
  spin_efficiency : Option PyVal
  release_extension : Option PyVal
deriving DecidableEq

/-- Embedding of `map_pitchlogic_fields(row)`.  `spin_axis` and
`arm_slot` convert their raw value through the tilt converter only when
that value is truthy (`tilt_to_degrees(raw) if raw else None`);
`relative_spin_direction` is only assigned when both are non-NA, and the
inner `float()` calls on the already-float values cannot fail. -/
def map_pitchlogic_fields (row : Row) : PitchLogicData :=
  let spin_axis_raw :=
    pyOr (pyOr (pyOr (rowGet row "Axis") (rowGet row "SpinAxis"))
         (rowGet row "Spin Axis")) (rowGet row "Spin Direction (blue)")
  let arm_slot_raw :=
    pyOr (pyOr (rowGet row "ArmSlot") (rowGet row "Arm Slot")) (rowGet row "Arm Slot (yellow)")
  let spin_axis := if optTruthy spin_axis_raw then tilt_to_degrees spin_axis_raw else none
  let arm_slot := if optTruthy arm_slot_raw then tilt_to_degrees arm_slot_raw else none
  { release_speed :=
      pyOr (pyOr (rowGet row "Velo") (rowGet row "Speed")) (rowGet row "Speed (mph)")
    spin_rate :=
      pyOr (pyOr (pyOr (rowGet row "Spin") (rowGet row "SpinRate"))
           (rowGet row "Spin Rate")) (rowGet row "Total Spin (rpm)")
    spin_axis := spin_axis
    horizontal_break :=
      pyOr (pyOr (rowGet row "HB") (rowGet row "Horizontal Break"))
           (rowGet row "Horizontal Movement (in)")
    vertical_break :=
      pyOr (pyOr (rowGet row "VB") (rowGet row "Vertical Break"))
           (rowGet row "Vertical Movement (in)")
    release_height := pyOr (rowGet row "RH") (rowGet row "Release Height")
    release_side := pyOr (rowGet row "RS") (rowGet row "Release Side")
    arm_slot := arm_slot
    gyro_degree := pyOr (rowGet row "Gyro") (rowGet row "Rifle Spin (rpm)")
    relative_spin_direction :=
      match spin_axis, arm_slot with
      | some a, some b => some |a - b|
      | _, _ => none
    spin_efficiency :=
      pyOr (pyOr (rowGet row "SpinEff") (rowGet row "Spin Efficiency"))
           (rowGet row "Spin Efficiency (%)")
    release_extension := pyOr (rowGet row "Forward Extension (ft)") (rowGet row "Extension") }

/-- First-truthy selection over a list of alternate column names: the
semantics of a Python `row.get(k1) or row.get(k2) or ...` chain.  The
last alternate's lookup is returned as-is when no earlier one is
truthy. -/
def firstTruthyVal (row : Row) : List String → Option PyVal
  | [] => none
  | [k] => rowGet row k
  | k :: ks => if optTruthy (rowGet row k) then rowGet row k else firstTruthyVal row ks

/-!
Data validator (`validate_pitch_data`, lines 650-683).  The numeric
fields are modelled as exact rationals (the `float()` coercions on
already-numeric values are identities); penalties 0.3 / 0.2 are the
rationals 3/10 / 1/5.  IEEE double rounding (under which, e.g.,
`1.0 - 0.3 - 0.3` prints as 0.3999999999999999...) is abstracted to
exact arithmetic. -/

/-- The four validated fields of the pitch dict; `none` models a missing
key, `None`, or NaN (all rejected by `pd.notna`). -/
structure PitchRec where
  release_speed : Option ℚ
  spin_rate : Option ℚ
  spin_axis : Option ℚ
  release_height : Option ℚ
deriving DecidableEq

/-- One range check of `validate_pitch_data`: an absent (or NA) field
is left alone; a present value outside `[lo, hi]` costs `pen` and
appends one issue string. -/
def checkRule (lo hi pen : ℚ) (msg : ℚ → String) (field : Option ℚ)
    (acc : ℚ × List String) : ℚ × List String :=
  match field with
  | none => acc
  | some v => if lo ≤ v ∧ v ≤ hi then acc else (acc.1 - pen, acc.2 ++ [msg v])

/-- Embedding of `validate_pitch_data(pitch_dict)`: starting from score
1.0 and no issues, the four range rules run in sequence (velocity
40-110 costing 0.3, spin rate 500-3500 costing 0.3, spin axis 0-360
costing 0.2, release height 3-8 costing 0.2), and the final score is
floored at 0. -/
def validate_pitch_data (d : PitchRec) : ℚ × List String :=
  let r1 := checkRule 40 110 (3/10)
    (fun v => "Velocity " ++ toString v ++ " mph outside normal range")
    d.release_speed (1, [])
  let r2 := checkRule 500 3500 (3/10)
    (fun v => "Spin rate " ++ toString v ++ " rpm outside normal range")
    d.spin_rate r1
  let r3 := checkRule 0 360 (1/5)
    (fun v => "Spin axis " ++ toString v ++ " outside 0-360 range")
    d.spin_axis r2
  let r4 := checkRule 3 8 (1/5)
    (fun v => "Release height " ++ toString v ++ " ft unusual")
    d.release_height r3
  (max 0 r4.1, r4.2)

/-- Whether a field is present and outside its range. -/
def fieldViol (lo hi : ℚ) : Option ℚ → Bool
  | none => false
  | some v => if lo ≤ v ∧ v ≤ hi then false else true

/-- Velocity rule violated: field present and outside 40-110. -/
def veloViol (d : PitchRec) : Bool := fieldViol 40 110 d.release_speed

/-- Spin-rate rule violated: field present and outside 500-3500. -/
def spinViol (d : PitchRec) : Bool := fieldViol 500 3500 d.spin_rate

/-- Spin-axis rule violated: field present and outside 0-360. -/
def axisViol (d : PitchRec) : Bool := fieldViol 0 360 d.spin_axis

/-- Release-height rule violated: field present and outside 3-8. -/
def heightViol (d : PitchRec) : Bool := fieldViol 3 8 d.release_height

/-- Total penalty under the independent-rules reading of the spec. -/
def penaltyOf (d : PitchRec) : ℚ :=
  (if veloViol d then 3/10 else 0) + (if spinViol d then 3/10 else 0) +
  (if axisViol d then 1/5 else 0) + (if heightViol d then 1/5 else 0)

/-- Number of violated rules. -/
def violCount (d : PitchRec) : Nat :=
  (if veloViol d then 1 else 0) + (if spinViol d then 1 else 0) +
  (if axisViol d then 1 else 0) + (if heightViol d then 1 else 0)

/-!
Per-pitcher insert loop (`process_pitcher_data`, lines 882-1026).  The
body of the per-row `try` performs field mapping, coercion and a
database insert; it is abstracted to its outcome: `true` with no message
when the row inserts, `false` with the exception text when any step
raises.  The loop structure, counters and bounded error log are
translated from the source. -/

/-- The `stats` dict threaded through the loop. -/
structure UploadStats where
  inserted : Nat
  skipped : Nat
  errors : List String
deriving DecidableEq

/-- One iteration: success increments `inserted`; an exception
increments `skipped` and appends `"Row {idx + 1}: {message}"` while
fewer than 10 messages are stored. -/
def processStep (st : UploadStats) (idx : Nat) (r : Bool × String) : UploadStats :=
  if r.1 then { st with inserted := st.inserted + 1 }
  else
    { st with
      skipped := st.skipped + 1
      errors :=
        if st.errors.length < 10 then
          st.errors ++ ["Row " ++ toString (idx + 1) ++ ": " ++ r.2]
        else st.errors }

/-- The `for idx, row in df.iterrows()` loop over the remaining rows. -/
def processLoop (st : UploadStats) (idx : Nat) : List (Bool × String) → UploadStats
  | [] => st
  | r :: rs => processLoop (processStep st idx r) (idx + 1) rs

/-- Embedding of `process_pitcher_data` restricted to its statistics:
each row is given by its abstracted outcome. -/
def process_pitcher_data (rows : List (Bool × String)) : UploadStats :=
  processLoop ⟨0, 0, []⟩ 0 rows

/-- The error messages of the failing rows, in order, starting at row
index `idx`. -/
def failList (idx : Nat) : List (Bool × String) → List String
  | [] => []
  | r :: rs =>
    if r.1 then failList (idx + 1) rs
    else ("Row " ++ toString (idx + 1) ++ ": " ++ r.2) :: failList (idx + 1) rs

/-!
Bulk-mode detection (`detect_bulk_mode`, lines 482-503). -/

/-- A dataframe, modelled by its columns: name paired with the column's
cell values. -/
structure DataFrame where
  cols : List (String × List PyVal)
deriving DecidableEq

/-- The column names. -/
def dfCols (df : DataFrame) : List String := df.cols.map (·.1)

/-- The values of a column (empty for an absent column; only accessed
after a membership check in the source). -/
def dfGet (df : DataFrame) (k : String) : List PyVal :=
  (List.lookup k df.cols).getD []

/-- Model of `Series.nunique()`: the number of distinct non-NaN
values. -/
def nuniqueVals (vals : List PyVal) : Nat :=
  ((vals.filter fun v => v != PyVal.vnan).foldl
    (fun acc v => if v ∈ acc then acc else v :: acc) []).length

/-- Model of `astype(str)` on one cell (pandas renders NaN as the
string "nan"; numbers via their repr, immaterial to the claims). -/
def pyStr : PyVal → String
  | .vstr s => s
  | .vnum q => toString q
  | .vnan => "nan"

/-- Embedding of `detect_bulk_mode(df, data_source)`: only the
PitchLogic and Rapsodo branches inspect the frame; every other vendor
falls through to `(False, 1)`. -/
def detect_bulk_mode (df : DataFrame) (ds : String) : Bool × Nat :=
  if ds = "PitchLogic" then
    if "Pitcher Name" ∈ dfCols df ∨ "Pitcher" ∈ dfCols df then
      let col := if "Pitcher Name" ∈ dfCols df then "Pitcher Name" else "Pitcher"
      let n := nuniqueVals (dfGet df col)
      (n > 1, n)
    else if "First Name" ∈ dfCols df ∧ "Last Name" ∈ dfCols df then
      let combined :=
        List.zipWith (fun a b => PyVal.vstr (pyStr a ++ " " ++ pyStr b))
          (dfGet df "First Name") (dfGet df "Last Name")
      let n := nuniqueVals combined
      (n > 1, n)
    else (false, 1)
  else if ds = "Rapsodo" then
    if "Pitcher" ∈ dfCols df then
      let n := nuniqueVals (dfGet df "Pitcher")
      (n > 1, n)
    else (false, 1)
  else (false, 1)

/-!
Claims about the player matcher. -/

/-- Claim C1: with a non-empty candidate name, a non-empty external id
and vendor, and a roster whose scan for the vendor-specific id field
hits (first hit `p`), `match_player_name` returns `p`'s id with method
`External ID` and confidence `High` — no name rule is consulted, so this
holds whatever the roster's names are; moreover the hit really carries
the given external id. -/
theorem matcher_extid_first (s e d : String) (ps : List Player) (p : Player)
    (hs : s ≠ "") (he : e ≠ "") (hd : d ≠ "")
    (hp : (ps.find? fun q => List.lookup (lowerS d ++ "_player_id") q.ids == some e) = some p) :
    match_player_name (some s) ps (some e) (some d) =
      some ⟨p.player_id, ⟨p.player_id, "External ID", "High", p⟩, false, []⟩ ∧
    List.lookup (lowerS d ++ "_player_id") p.ids = some e := by
  constructor
  · simp only [match_player_name, extScan]
    rw [if_neg hs, if_pos ⟨he, hd⟩, hp]
  · have h := List.find?_some hp
    exact eq_of_beq h

/-- Witness for C1: the external-id player (id 3) wins although a
different roster player (id 1) matches the candidate name exactly. -/
theorem matcher_extid_first_w :
    (match_player_name (some "John Smith")
        [⟨1, "John", "Smith", []⟩, ⟨3, "Jane", "Doe", [("rapsodo_player_id", "42")]⟩]
        (some "42") (some "Rapsodo") =
      some ⟨3, ⟨3, "External ID", "High", ⟨3, "Jane", "Doe", [("rapsodo_player_id", "42")]⟩⟩,
            false, []⟩) ∧
    classify (lowerS (trimS "John Smith")) ⟨1, "John", "Smith", []⟩ ≠ none :=
  ⟨(matcher_extid_first "John Smith" "42" "Rapsodo"
      [⟨1, "John", "Smith", []⟩, ⟨3, "Jane", "Doe", [("rapsodo_player_id", "42")]⟩]
      ⟨3, "Jane", "Doe", [("rapsodo_player_id", "42")]⟩
      (by decide) (by decide) (by decide) (by decide)).1,
   by decide⟩

/-- Claim C8: a null (None/NaN) or empty candidate name returns
`(None, None)` unconditionally — the nullity check precedes the
external-id scan, so even a roster id hit is never consulted. -/
theorem matcher_null_name (pn : Option String) (ps : List Player) (eid ds : Option String)
    (h : pn = none ∨ pn = some "") :
    match_player_name pn ps eid ds = none := by
  rcases h with h | h <;> subst h <;> simp [match_player_name]

/-- Witness for C8: the empty name yields no match even though the
roster's only player carries exactly the supplied Rapsodo id. -/
theorem matcher_null_name_w :
    extScan [⟨7, "Amy", "Lee", [("rapsodo_player_id", "99")]⟩] (some "99") (some "Rapsodo") =
      some ⟨7, "Amy", "Lee", [("rapsodo_player_id", "99")]⟩ ∧
    match_player_name (some "") [⟨7, "Amy", "Lee", [("rapsodo_player_id", "99")]⟩]
        (some "99") (some "Rapsodo") = none :=
  ⟨by decide,
   matcher_null_name (some "") [⟨7, "Amy", "Lee", [("rapsodo_player_id", "99")]⟩]
     (some "99") (some "Rapsodo") (Or.inr rfl)⟩

/-- Unfolding equation for `firstMax` on a cons cell. -/
theorem firstMax_cons (m x : MatchRec) (xs : List MatchRec) :
    firstMax m (x :: xs) =
      if confScore m.confidence < confScore (firstMax x xs).confidence
      then firstMax x xs else m := rfl

/-- The selected best match is one of the matches. -/
theorem firstMax_mem (m : MatchRec) (ms : List MatchRec) : firstMax m ms ∈ m :: ms := by
  induction ms generalizing m with
  | nil => simp [firstMax]
  | cons x xs ih =>
    rw [firstMax_cons]
    by_cases h : confScore m.confidence < confScore (firstMax x xs).confidence
    · rw [if_pos h]
      exact List.mem_cons_of_mem m (ih x)
    · rw [if_neg h]
      exact List.mem_cons_self m (x :: xs)

/-- The selected best match has maximal confidence score. -/
theorem firstMax_le (m : MatchRec) (ms : List MatchRec) :
    ∀ x ∈ m :: ms, confScore x.confidence ≤ confScore (firstMax m ms).confidence := by
  induction ms generalizing m with
  | nil =>
    intro x hx
    rw [List.mem_singleton] at hx
    subst hx
    exact Nat.le_refl _
  | cons y ys ih =>
    intro x hx
    rw [firstMax_cons]
    by_cases h : confScore m.confidence < confScore (firstMax y ys).confidence
    · rw [if_pos h]
      rcases List.mem_cons.mp hx with hx | hx
      · subst hx; exact Nat.le_of_lt h
      · exact ih y x hx
    · rw [if_neg h]
      rcases List.mem_cons.mp hx with hx | hx
      · subst hx; exact Nat.le_refl _
      · exact Nat.le_trans (ih y x hx) (Nat.le_of_not_lt h)

/-- The selected best match is the first maximal one: every match
strictly before it in the list scores strictly lower. -/
theorem firstMax_split (m : MatchRec) (ms : List MatchRec) :
    ∃ l1 l2, m :: ms = l1 ++ firstMax m ms :: l2 ∧
      ∀ x ∈ l1, confScore x.confidence < confScore (firstMax m ms).confidence := by
  induction ms generalizing m with
  | nil => exact ⟨[], [], rfl, by simp⟩
  | cons y ys ih =>
    rw [firstMax_cons]
    by_cases h : confScore m.confidence < confScore (firstMax y ys).confidence
    · obtain ⟨l1, l2, heq, hlt⟩ := ih y
      rw [if_pos h]
      exact ⟨m :: l1, l2, by rw [List.cons_append, ← heq],
        fun x hx => by
          rcases List.mem_cons.mp hx with hx | hx
          · subst hx; exact h
          · exact hlt x hx⟩
    · rw [if_neg h]
      exact ⟨[], y :: ys, rfl, by simp⟩

/-- If no later match scores strictly higher, the first match wins. -/
theorem firstMax_eq_head (m : MatchRec) (ms : List MatchRec)
    (h : ∀ x ∈ ms, confScore x.confidence ≤ confScore m.confidence) :
    firstMax m ms = m := by
  cases ms with
  | nil => rfl
  | cons y ys =>
    rw [firstMax_cons, if_neg]
    exact Nat.not_lt.mpr (h _ (firstMax_mem y ys))

/-- Claim C2: when the name rules produce at least two matches, the
matcher returns exactly one id — that of `firstMax`, the first match of
maximal confidence tier: the list decomposes around the returned match
with every earlier competitor scoring strictly lower and no competitor
scoring higher — and the result is flagged `has_duplicates` with the
full match list attached. -/
theorem matcher_duplicates (s : String) (ps : List Player) (eid ds : Option String)
    (m m2 : MatchRec) (rest : List MatchRec)
    (hs : s ≠ "") (hext : extScan ps eid ds = none)
    (hms : collectMatches (lowerS (trimS s)) ps = m :: m2 :: rest) :
    ∃ l1 l2,
      match_player_name (some s) ps eid ds =
        some ⟨(firstMax m (m2 :: rest)).player_id, firstMax m (m2 :: rest), true,
              m :: m2 :: rest⟩ ∧
      m :: m2 :: rest = l1 ++ firstMax m (m2 :: rest) :: l2 ∧
      (∀ x ∈ l1, confScore x.confidence < confScore (firstMax m (m2 :: rest)).confidence) ∧
      ∀ x ∈ m :: m2 :: rest,
        confScore x.confidence ≤ confScore (firstMax m (m2 :: rest)).confidence := by
  obtain ⟨l1, l2, heq, hlt⟩ := firstMax_split m (m2 :: rest)
  refine ⟨l1, l2, ?_, heq, hlt, firstMax_le m (m2 :: rest)⟩
  simp only [match_player_name]
  rw [if_neg hs, hext, hms]

/-- Witness for C2: two roster players share the last name "Smith"; the
candidate "Smith" matches both at tier Medium, the first (id 1) is
returned, `has_duplicates` is set and both appear in `all_matches`. -/
theorem matcher_duplicates_w :
    ∃ l1 l2,
      match_player_name (some "Smith")
          [⟨1, "John", "Smith", []⟩, ⟨2, "Jane", "Smith", []⟩] none none =
        some ⟨(firstMax ⟨1, "Last Name", "Medium", ⟨1, "John", "Smith", []⟩⟩
                 [⟨2, "Last Name", "Medium", ⟨2, "Jane", "Smith", []⟩⟩]).player_id,
              firstMax ⟨1, "Last Name", "Medium", ⟨1, "John", "Smith", []⟩⟩
                 [⟨2, "Last Name", "Medium", ⟨2, "Jane", "Smith", []⟩⟩], true,
              [⟨1, "Last Name", "Medium", ⟨1, "John", "Smith", []⟩⟩,
               ⟨2, "Last Name", "Medium", ⟨2, "Jane", "Smith", []⟩⟩]⟩ ∧
      [⟨1, "Last Name", "Medium", ⟨1, "John", "Smith", []⟩⟩,
       ⟨2, "Last Name", "Medium", ⟨2, "Jane", "Smith", []⟩⟩] =
        l1 ++ firstMax ⟨1, "Last Name", "Medium", ⟨1, "John", "Smith", []⟩⟩
                [⟨2, "Last Name", "Medium", ⟨2, "Jane", "Smith", []⟩⟩] :: l2 ∧
      (∀ x ∈ l1, confScore x.confidence <
        confScore (firstMax ⟨1, "Last Name", "Medium", ⟨1, "John", "Smith", []⟩⟩
          [⟨2, "Last Name", "Medium", ⟨2, "Jane", "Smith", []⟩⟩]).confidence) ∧
      ∀ x ∈ [⟨(1 : Nat), "Last Name", "Medium", ⟨1, "John", "Smith", []⟩⟩,
             (⟨2, "Last Name", "Medium", ⟨2, "Jane", "Smith", []⟩⟩ : MatchRec)],
        confScore x.confidence ≤
          confScore (firstMax ⟨1, "Last Name", "Medium", ⟨1, "John", "Smith", []⟩⟩
            [⟨2, "Last Name", "Medium", ⟨2, "Jane", "Smith", []⟩⟩]).confidence :=
  matcher_duplicates "Smith" [⟨1, "John", "Smith", []⟩, ⟨2, "Jane", "Smith", []⟩] none none
    ⟨1, "Last Name", "Medium", ⟨1, "John", "Smith", []⟩⟩
    ⟨2, "Last Name", "Medium", ⟨2, "Jane", "Smith", []⟩⟩ []
    (by decide) (by decide) (by decide)

/-- Dropping while a predicate holds everywhere empties the list. -/
theorem dropWhile_all (p : Char → Bool) (l : List Char) (h : ∀ c ∈ l, p c = true) :
    l.dropWhile p = [] := by
  induction l with
  | nil => rfl
  | cons x xs ih =>
    rw [List.dropWhile_cons, if_pos (h x (List.mem_cons_self x xs))]
    exact ih fun c hc => h c (List.mem_cons_of_mem x hc)

/-- Stripping a string of pure whitespace leaves nothing. -/
theorem trimL_all_ws (l : List Char) (h : ∀ c ∈ l, wsp c = true) : trimL l = [] := by
  rw [trimL, dropWhile_all wsp l h]
  rfl

/-- On an empty candidate name, every roster player whose lowered last
name is non-empty fires the contains rule (the empty string is a
substring of every full name) and nothing stronger. -/
theorem classify_empty (q : Player) (hln : lowerS q.last_name ≠ "") :
    classify "" q = some ⟨q.player_id, "Partial Match", "Low", q⟩ := by
  have hfull : ("" : String) ≠ lowerS (q.first_name ++ " " ++ q.last_name) := by
    intro heq
    have hd := congrArg String.data heq
    simp [lowerS, String.data_append] at hd
  have hrev : ("" : String) ≠ lowerS q.last_name ++ " " ++ lowerS q.first_name := by
    intro heq
    have hd := congrArg String.data heq
    simp [String.data_append] at hd
  have hsub : subStr "" (lowerS (q.first_name ++ " " ++ q.last_name)) = true := by
    have : ∀ l : List Char, infixCheck [] l = true := by
      intro l
      cases l <;> rfl
    simpa [subStr] using this _
  unfold classify
  rw [if_neg hfull, if_neg (Ne.symm (Ne.symm (fun heq => hln heq.symm))), if_neg hrev,
    if_pos (by rw [hsub, Bool.or_true])]

/-- Over a roster of players with non-empty last names, the empty
candidate name collects one Low partial match per player. -/
theorem collect_empty (ps : List Player) (h : ∀ q ∈ ps, lowerS q.last_name ≠ "") :
    collectMatches "" ps =
      ps.map fun q => ⟨q.player_id, "Partial Match", "Low", q⟩ := by
  induction ps with
  | nil => rfl
  | cons q qs ih =>
    rw [collectMatches, List.filterMap_cons,
      classify_empty q (h q (List.mem_cons_self q qs)), List.map_cons]
    exact congrArg _ (ih fun r hr => h r (List.mem_cons_of_mem q hr))

/-- Claim C9: a whitespace-only (hence truthy) candidate name strips to
the empty string, which the contains rule matches against every roster
player, so with no external-id hit the matcher returns the first roster
player — with `has_duplicates` and all players as Low partial matches
whenever the roster has at least two players — instead of no match. -/
theorem matcher_ws_name (s : String) (p : Player) (rest : List Player) (eid ds : Option String)
    (hs : s ≠ "") (hws : ∀ c ∈ s.data, wsp c = true)
    (hext : extScan (p :: rest) eid ds = none)
    (hnames : ∀ q ∈ p :: rest, lowerS q.last_name ≠ "") :
    match_player_name (some s) (p :: rest) eid ds =
      some (if rest.isEmpty then
              ⟨p.player_id, ⟨p.player_id, "Partial Match", "Low", p⟩, false, []⟩
            else
              ⟨p.player_id, ⟨p.player_id, "Partial Match", "Low", p⟩, true,
               (p :: rest).map fun q => ⟨q.player_id, "Partial Match", "Low", q⟩⟩) := by
  have hname : lowerS (trimS s) = "" := by
    rw [trimS, trimL_all_ws s.data hws]
    rfl
  simp only [match_player_name]
  rw [if_neg hs, hext, hname, collect_empty (p :: rest) hnames]
  cases rest with
  | nil => rfl
  | cons r rs =>
    simp only [List.map_cons, List.isEmpty_cons]
    have hfm :
        firstMax ⟨p.player_id, "Partial Match", "Low", p⟩
          (⟨r.player_id, "Partial Match", "Low", r⟩ ::
            rs.map fun q => ⟨q.player_id, "Partial Match", "Low", q⟩) =
          ⟨p.player_id, "Partial Match", "Low", p⟩ := by
      apply firstMax_eq_head
      intro x hx
      rcases List.mem_cons.mp hx with hx | hx
      · subst hx; exact Nat.le_refl _
      · obtain ⟨q, _, hq⟩ := List.mem_map.mp hx
        rw [← hq]
    rw [hfm]
    simp

/-- Witness for C9: the single-space name against a two-player roster
returns the first player with duplicates flagged and both players listed
as Low partial matches. -/
theorem matcher_ws_name_w :
    match_player_name (some " ")
        [⟨1, "John", "Smith", []⟩, ⟨2, "Jane", "Doe", []⟩] none none =
      some (if ([⟨2, "Jane", "Doe", []⟩] : List Player).isEmpty then
              ⟨1, ⟨1, "Partial Match", "Low", ⟨1, "John", "Smith", []⟩⟩, false, []⟩
            else
              ⟨1, ⟨1, "Partial Match", "Low", ⟨1, "John", "Smith", []⟩⟩, true,
               ([⟨1, "John", "Smith", []⟩, ⟨2, "Jane", "Doe", []⟩] : List Player).map
                 fun q => ⟨q.player_id, "Partial Match", "Low", q⟩⟩) :=
  matcher_ws_name " " ⟨1, "John", "Smith", []⟩ [⟨2, "Jane", "Doe", []⟩] none none
    (by decide) (by decide) (by decide) (by decide)

set_option maxRecDepth 100000

/-- Parsing facts behind the clock conversion, established by
evaluation for every hour 0-11 and minute 0-59: the clock string is
non-empty, `float()` rejects it, it contains a colon, it splits into
the hour and minute numerals, and `int()` reads those back. -/
theorem tilt_parse_facts : ∀ h : Nat, h < 12 → ∀ m : Nat, m < 60 →
    ((toString h ++ ":" ++ toString m) ≠ "") ∧
    pyFloatL (trimL (toString h ++ ":" ++ toString m).data) = none ∧
    (':') ∈ trimL (toString h ++ ":" ++ toString m).data ∧
    splitOnChar ':' (trimL (toString h ++ ":" ++ toString m).data) =
      [(toString h).data, (toString m).data] ∧
    pyIntL (toString h).data = some (h : Int) ∧
    pyIntL (toString m).data = some (m : Int) := by decide

/-- Python `%` is the identity on arguments already inside `[0, y)`. -/
theorem pymod_eq_self (x y : ℚ) (hy : 0 < y) (h0 : 0 ≤ x) (h1 : x < y) :
    pymod x y = x := by
  have hfl : ratFloor (x / y) = 0 := by
    rw [ratFloor, Int.floor_eq_zero_iff]
    exact ⟨div_nonneg h0 hy.le, (div_lt_one hy).mpr h1⟩
  rw [pymod, hfl]
  push_cast
  ring

/-- Evaluation of the clock branch once the parsing facts are known. -/
theorem clockBranch_eval (t : List Char) (p0 p1 : List Char) (h m : Int)
    (hc : (':') ∈ t) (hsplit : splitOnChar ':' t = [p0, p1])
    (hih : pyIntL p0 = some h) (him : pyIntL p1 = some m) :
    clockBranch t = some (pymod (((Int.emod h 12 : ℤ) : ℚ) * 30 + (m : ℚ) / 2) 360) := by
  unfold clockBranch
  rw [if_pos hc, hsplit]
  simp only [hih, him]

/-- Reduction of the string path to the clock branch when `float()`
fails. -/
theorem tiltStr_clock (s : String) (hf : pyFloatL (trimL s.data) = none) :
    tiltStr s = clockBranch (trimL s.data) := by
  show (match pyFloatL (trimL s.data) with
        | some q => some q
        | none => clockBranch (trimL s.data)) = _
  rw [hf]

/-- Claim C3: for every hour 0-11 and minute 0-59 the clock string
converts to `((H mod 12) * 30 + MM / 2) mod 360`, which lies in
`[0, 360)`; the out-of-range clock "13:99" raises nothing and converts
with its parts as given (to 79.5); and null, NaN, empty and unparseable
inputs all yield no value — the embedding is total, reflecting the
catch-all handler. -/
theorem tilt_conversion_spec :
    (∀ h : Nat, h < 12 → ∀ m : Nat, m < 60 →
      tilt_to_degrees (some (.vstr (toString h ++ ":" ++ toString m))) =
        some (pymod (((h % 12 : Nat) : ℚ) * 30 + (m : ℚ) / 2) 360) ∧
      0 ≤ pymod (((h % 12 : Nat) : ℚ) * 30 + (m : ℚ) / 2) 360 ∧
      pymod (((h % 12 : Nat) : ℚ) * 30 + (m : ℚ) / 2) 360 < 360) ∧
    tilt_to_degrees (some (.vstr "13:99")) = some (159 / 2) ∧
    tilt_to_degrees none = none ∧
    tilt_to_degrees (some .vnan) = none ∧
    tilt_to_degrees (some (.vstr "")) = none ∧
    (∀ s : String, pyFloatL (trimL s.data) = none → clockBranch (trimL s.data) = none →
      tilt_to_degrees (some (.vstr s)) = none) := by
  refine ⟨?_, ?_, rfl, rfl, rfl, ?_⟩
  · intro h hh m hm
    obtain ⟨hne, hf, hc, hsplit, hih, him⟩ := tilt_parse_facts h hh m hm
    have hmod : Int.emod (h : ℤ) 12 = ((h % 12 : Nat) : ℤ) := by
      show (h : ℤ) % 12 = ((h % 12 : Nat) : ℤ)
      norm_cast
    have hval : (((Int.emod (h : ℤ) 12 : ℤ) : ℚ)) * 30 + (((m : ℤ) : ℚ)) / 2 =
        ((h % 12 : Nat) : ℚ) * 30 + (m : ℚ) / 2 := by
      rw [hmod]
      simp only [Int.cast_natCast]
    have heval : tilt_to_degrees (some (.vstr (toString h ++ ":" ++ toString m))) =
        some (pymod (((h % 12 : Nat) : ℚ) * 30 + (m : ℚ) / 2) 360) := by
      show (if (toString h ++ ":" ++ toString m) = "" then none
            else tiltStr (toString h ++ ":" ++ toString m)) = _
      rw [if_neg hne, tiltStr_clock _ hf,
        clockBranch_eval _ _ _ _ _ hc hsplit hih him, hval]
    have hmlt : h % 12 = h := Nat.mod_eq_of_lt hh
    have hb0 : (0 : ℚ) ≤ ((h % 12 : Nat) : ℚ) * 30 + (m : ℚ) / 2 := by positivity
    have hb1 : ((h % 12 : Nat) : ℚ) * 30 + (m : ℚ) / 2 < 360 := by
      rw [hmlt]
      have h1 : (h : ℚ) ≤ 11 := by exact_mod_cast Nat.le_of_lt_succ hh
      have h2 : (m : ℚ) ≤ 59 := by exact_mod_cast Nat.le_of_lt_succ hm
      linarith
    refine ⟨heval, ?_, ?_⟩
    · rw [pymod_eq_self _ _ (by norm_num) hb0 hb1]
      exact hb0
    · rw [pymod_eq_self _ _ (by norm_num) hb0 hb1]
      exact hb1
  · have hf : pyFloatL (trimL ("13:99" : String).data) = none := by decide
    have hc : (':') ∈ trimL ("13:99" : String).data := by decide
    have hsplit : splitOnChar ':' (trimL ("13:99" : String).data) = [['1', '3'], ['9', '9']] := by
      decide
    have hih : pyIntL ['1', '3'] = some 13 := by decide
    have him : pyIntL ['9', '9'] = some 99 := by decide
    have hmod : Int.emod (13 : ℤ) 12 = 1 := by decide
    have heval : tilt_to_degrees (some (.vstr "13:99")) =
        some (pymod (((Int.emod (13 : ℤ) 12 : ℤ) : ℚ) * 30 + ((99 : ℤ) : ℚ) / 2) 360) := by
      show (if ("13:99" : String) = "" then none else tiltStr "13:99") = _
      rw [if_neg (by decide), tiltStr_clock _ hf,
        clockBranch_eval _ _ _ _ _ hc hsplit hih him]
    rw [heval, hmod]
    have hval : ((1 : ℤ) : ℚ) * 30 + ((99 : ℤ) : ℚ) / 2 = 159 / 2 := by norm_num
    rw [hval, pymod_eq_self _ _ (by norm_num) (by norm_num) (by norm_num)]
  · intro s hf hc
    by_cases hs : s = ""
    · subst hs
      rfl
    · show (if s = "" then none else tiltStr s) = none
      rw [if_neg hs, tiltStr_clock _ hf, hc]

/-- Witness for C3: the clock "1:30" converts through the theorem, and
the unparseable "abc" yields no value. -/
theorem tilt_conversion_spec_w :
    tilt_to_degrees (some (.vstr (toString 1 ++ ":" ++ toString 30))) =
      some (pymod (((1 % 12 : Nat) : ℚ) * 30 + ((30 : Nat) : ℚ) / 2) 360) ∧
    tilt_to_degrees (some (.vstr "abc")) = none :=
  ⟨(tilt_conversion_spec.1 1 (by norm_num) 30 (by norm_num)).1,
   tilt_conversion_spec.2.2.2.2.2 "abc" (by decide) (by decide)⟩

theorem char_toNat_inj (a b : Char) (h : a.toNat = b.toNat) : a = b :=
  Char.ext (UInt32.ext h)

theorem charOfNat_toNat : ∀ n : Nat, 65 ≤ n → n ≤ 90 → (Char.ofNat n).toNat = n := by
  intro n h1 h2
  interval_cases n <;> rfl

theorem upChar_toNat (c : Char) :
    (upChar c).toNat = if 97 ≤ c.toNat ∧ c.toNat ≤ 122 then c.toNat - 32 else c.toNat := by
  unfold upChar
  split_ifs with h
  · exact charOfNat_toNat _ (by omega) (by omega)
  · rfl

theorem upChar_idem (c : Char) : upChar (upChar c) = upChar c := by
  apply char_toNat_inj
  rw [upChar_toNat (upChar c), if_neg]
  rw [upChar_toNat c]
  split_ifs with h <;> omega

theorem wsp_true_iff (c : Char) :
    wsp c = true ↔ (c.toNat = 32 ∨ c.toNat = 9 ∨ c.toNat = 10 ∨ c.toNat = 13 ∨
      c.toNat = 11 ∨ c.toNat = 12) := by
  have hiff : ∀ d : Char, (c == d) = true ↔ c.toNat = d.toNat := by
    intro d
    rw [beq_iff_eq]
    exact ⟨fun h => by rw [h], fun h => char_toNat_inj c d h⟩
  simp only [wsp, Bool.or_eq_true, hiff,
    show (' ').toNat = 32 from rfl, show ('\t').toNat = 9 from rfl,
    show ('\n').toNat = 10 from rfl, show ('\r').toNat = 13 from rfl,
    show ('\x0b').toNat = 11 from rfl, show ('\x0c').toNat = 12 from rfl]
  tauto

theorem wsp_upChar (c : Char) : wsp (upChar c) = wsp c := by
  apply Bool.coe_iff_coe.mp
  rw [wsp_true_iff, wsp_true_iff, upChar_toNat]
  split_ifs with h <;> omega

theorem upChar_ne_space (c : Char) : (upChar c != ' ') = (c != ' ') := by
  apply Bool.coe_iff_coe.mp
  rw [bne_iff_ne, bne_iff_ne]
  constructor
  · intro h heq
    exact h (by rw [heq]; rfl)
  · intro h heq
    apply h
    apply char_toNat_inj
    have h2 := congrArg Char.toNat heq
    rw [upChar_toNat] at h2
    simp only [show (' ').toNat = 32 from rfl] at h2 ⊢
    split_ifs at h2 with hc <;> omega

theorem filter_map_up (l : List Char) :
    (l.map upChar).filter (fun c => c != ' ') =
      (l.filter fun c => c != ' ').map upChar := by
  induction l with
  | nil => rfl
  | cons x xs ih =>
    rw [List.map_cons, List.filter_cons, List.filter_cons, upChar_ne_space]
    cases h : (x != ' ') <;> simp [h, ih]

theorem map_upChar_idem (l : List Char) :
    (l.map upChar).map upChar = l.map upChar := by
  rw [List.map_map]
  exact List.map_congr_left fun a _ => upChar_idem a

theorem dropWhile_fix (p : Char → Bool) (l : List Char)
    (h : ∀ a, l.head? = some a → p a = false) : l.dropWhile p = l := by
  cases l with
  | nil => rfl
  | cons x xs => simp [List.dropWhile_cons, h x rfl]

theorem trim_fix (l : List Char)
    (hh : ∀ a, l.head? = some a → wsp a = false)
    (hl : ∀ a, l.getLast? = some a → wsp a = false) : trimL l = l := by
  rw [trimL, dropWhile_fix wsp l hh,
    dropWhile_fix wsp l.reverse (fun a ha => hl a (by rwa [List.head?_reverse] at ha)),
    List.reverse_reverse]

theorem dropWhile_head_false (p : Char → Bool) (l : List Char) :
    ∀ a, (l.dropWhile p).head? = some a → p a = false := by
  intro a ha
  have := List.head?_dropWhile_not p l
  rw [ha] at this
  exact this

theorem trimL_getLast (l : List Char) :
    ∀ a, (trimL l).getLast? = some a → wsp a = false := by
  intro a ha
  rw [trimL, List.getLast?_reverse] at ha
  exact dropWhile_head_false wsp _ a ha

theorem trimL_head (l : List Char) :
    ∀ a, (trimL l).head? = some a → wsp a = false := by
  intro a ha
  rw [trimL, List.head?_reverse] at ha
  obtain ⟨t, ht⟩ := List.dropWhile_suffix (l := (l.dropWhile wsp).reverse) wsp
  have h2 : (l.dropWhile wsp).reverse.getLast? = some a := by
    rw [← ht, List.getLast?_append, ha]
    rfl
  rw [List.getLast?_reverse] at h2
  exact dropWhile_head_false wsp l a h2

theorem filtmap_head (t : List Char) (h : ∀ a, t.head? = some a → wsp a = false) :
    ∀ a, ((t.map upChar).filter (fun c => c != ' ')).head? = some a → wsp a = false := by
  cases t with
  | nil => intro a ha; simp at ha
  | cons c t' =>
    intro a ha
    have hc : wsp c = false := h c rfl
    have hcne : (upChar c != ' ') = true := by
      rw [bne_iff_ne]
      intro heq
      have hwsp : wsp (upChar c) = true := by rw [heq]; rfl
      rw [wsp_upChar, hc] at hwsp
      exact Bool.false_ne_true hwsp
    rw [List.map_cons, List.filter_cons, if_pos hcne] at ha
    rw [List.head?_cons, Option.some_inj] at ha
    rw [← ha, wsp_upChar]
    exact hc

theorem normChars_head (l : List Char) :
    ∀ a, (normChars l).head? = some a → wsp a = false :=
  filtmap_head (trimL l) (trimL_head l)

theorem normChars_getLast (l : List Char) :
    ∀ a, (normChars l).getLast? = some a → wsp a = false := by
  intro a ha
  rw [normChars, ← List.head?_reverse, ← List.filter_reverse, ← List.map_reverse] at ha
  exact filtmap_head (trimL l).reverse
    (fun b hb => trimL_getLast l b (by rwa [List.head?_reverse] at hb)) a ha

theorem normChars_idem (l : List Char) : normChars (normChars l) = normChars l := by
  have h1 : trimL (normChars l) = normChars l :=
    trim_fix _ (normChars_head l) (normChars_getLast l)
  show ((trimL (normChars l)).map upChar).filter (fun c => c != ' ') = normChars l
  rw [h1]
  show (((((trimL l).map upChar).filter fun c => c != ' ').map upChar).filter
    fun c => c != ' ') = normChars l
  rw [← filter_map_up, List.filter_filter]
  rw [map_upChar_idem]
  show (((trimL l).map upChar).filter fun c => (c != ' ') && (c != ' ')) = normChars l
  simp only [Bool.and_self]
  rfl

theorem pyNorm_idem (s : String) : pyNorm (pyNorm s) = pyNorm s := by
  rw [pyNorm, pyNorm]
  exact congrArg (fun l => (⟨l⟩ : String)) (normChars_idem s.data)

theorem standardize_idem_unknown (s : String) (hne : pyNorm s ≠ "")
    (hlk : List.lookup (pyNorm s) PITCH_TYPE_MAP = none) :
    standardize_pitch_type (some s) = some (pyNorm s) ∧
    standardize_pitch_type (standardize_pitch_type (some s)) = some (pyNorm s) := by
  have hs : s ≠ "" := by
    intro h
    subst h
    exact hne rfl
  have h1 : standardize_pitch_type (some s) = some (pyNorm s) := by
    show (if s = "" then none
          else match List.lookup (pyNorm s) PITCH_TYPE_MAP with
               | some v => some v
               | none => some (pyNorm s)) = _
    rw [if_neg hs, hlk]
  refine ⟨h1, ?_⟩
  rw [h1]
  show (if pyNorm s = "" then none
        else match List.lookup (pyNorm (pyNorm s)) PITCH_TYPE_MAP with
             | some v => some v
             | none => some (pyNorm (pyNorm s))) = _
  rw [if_neg hne, pyNorm_idem, hlk]

/-- Claim C7 (amended): standardization is idempotent on every known
vendor code, and an unknown code whose stripped form is non-empty passes
through unchanged (as its normalized form) under both the first and the
second application.  The amendment excludes whitespace-only codes, whose
stripped form is the empty string: it passes through the first
application but hits the empty-input check on the second (see the
counterexample). -/
theorem pitch_type_idem_amended :
    (∀ kv ∈ PITCH_TYPE_MAP,
      standardize_pitch_type (standardize_pitch_type (some kv.1)) =
        standardize_pitch_type (some kv.1)) ∧
    (∀ s : String, pyNorm s ≠ "" → List.lookup (pyNorm s) PITCH_TYPE_MAP = none →
      standardize_pitch_type (some s) = some (pyNorm s) ∧
      standardize_pitch_type (standardize_pitch_type (some s)) = some (pyNorm s)) :=
  ⟨by decide, standardize_idem_unknown⟩

/-- Counterexample to C7 as stated: the unknown code " " (not in the
synonym table) does not pass through unchanged on the second
application — it strips to the empty string, which the first application
returns but the second maps to `None`. -/
theorem pitch_type_idem_cex :
    standardize_pitch_type (some " ") = some "" ∧
    standardize_pitch_type (standardize_pitch_type (some " ")) = none ∧
    standardize_pitch_type (standardize_pitch_type (some " ")) ≠
      standardize_pitch_type (some " ") := by decide

/-- Witness for the amended C7: the known code "FF" and the unknown
non-whitespace code "XX". -/
theorem pitch_type_idem_amended_w :
    standardize_pitch_type (standardize_pitch_type (some "FF")) =
      standardize_pitch_type (some "FF") ∧
    pyNorm "XX" ≠ "" ∧ List.lookup (pyNorm "XX") PITCH_TYPE_MAP = none ∧
    standardize_pitch_type (some "XX") = some (pyNorm "XX") ∧
    standardize_pitch_type (standardize_pitch_type (some "XX")) = some (pyNorm "XX") :=
  ⟨pitch_type_idem_amended.1 ("FF", "4FB") (by decide), by decide, by decide,
   (pitch_type_idem_amended.2 "XX" (by decide) (by decide)).1,
   (pitch_type_idem_amended.2 "XX" (by decide) (by decide)).2⟩

/-- Counterexample to C5 as stated: a present measured value of 0 in
the first alternate (`Velocity`) is falsy under Python `or`, so the
mapper skips it and — the remaining alternate being absent — maps
`release_speed` to no value instead of taking the 0. -/
theorem mapper_zero_skipped_cex :
    rowGet [("Velocity", PyVal.vnum 0)] "Velocity" = some (PyVal.vnum 0) ∧
    (map_rapsodo_fields [("Velocity", PyVal.vnum 0)]).release_speed = none ∧
    (map_rapsodo_fields [("Velocity", PyVal.vnum 0)]).release_speed ≠
      some (PyVal.vnum 0) := by decide

/-- Python `or` chains re-associate. -/
theorem pyOr_assoc (a b c : Option PyVal) : pyOr (pyOr a b) c = pyOr a (pyOr b c) := by
  unfold pyOr
  by_cases ha : optTruthy a <;> by_cases hb : optTruthy b <;> simp [ha, hb]

/-- An all-absent alternate list selects nothing. -/
theorem ftv_none (row : Row) (ks : List String) (h : ∀ k ∈ ks, rowGet row k = none) :
    firstTruthyVal row ks = none := by
  induction ks with
  | nil => rfl
  | cons k ks ih =>
    cases ks with
    | nil => exact h k (List.mem_cons_self k [])
    | cons k2 ks' =>
      show (if optTruthy (rowGet row k) then rowGet row k
            else firstTruthyVal row (k2 :: ks')) = none
      rw [h k (List.mem_cons_self k _)]
      exact ih fun j hj => h j (List.mem_cons_of_mem k hj)

/-- A truthy first alternate is taken. -/
theorem ftv_first (row : Row) (k : String) (ks : List String) (v : PyVal)
    (hk : rowGet row k = some v) (hv : truthyV v = true) :
    firstTruthyVal row (k :: ks) = some v := by
  cases ks with
  | nil => exact hk
  | cons k2 ks' =>
    show (if optTruthy (rowGet row k) then rowGet row k else _) = some v
    rw [hk]
    show (if truthyV v then some v else _) = some v
    rw [hv]
    rfl

/-- A falsy (absent, 0, or empty) non-final alternate is skipped. -/
theorem ftv_skip (row : Row) (k k2 : String) (ks : List String)
    (h : optTruthy (rowGet row k) = false) :
    firstTruthyVal row (k :: k2 :: ks) = firstTruthyVal row (k2 :: ks) := by
  show (if optTruthy (rowGet row k) then rowGet row k else _) = _
  rw [h]
  rfl

/-- Claim C5 (amended): every multi-alternate field of the Rapsodo and
PitchLogic mappers selects the first *truthy* alternate, Python `or`
semantics: `None`, `0` and `""` are falsy and skipped (so a present 0
is only kept in the final position), a truthy first alternate is taken,
and a field all of whose alternates are absent maps to no value; the
mappers are total, so no row shape raises. -/
theorem mapper_first_truthy (row : Row) :
    (map_rapsodo_fields row).release_speed = firstTruthyVal row ["Velocity", "RelSpeed"] ∧
    (map_rapsodo_fields row).induced_vertical_break =
      firstTruthyVal row ["InducedVertBreak", "iVB"] ∧
    (map_pitchlogic_fields row).release_speed =
      firstTruthyVal row ["Velo", "Speed", "Speed (mph)"] ∧
    (map_pitchlogic_fields row).spin_rate =
      firstTruthyVal row ["Spin", "SpinRate", "Spin Rate", "Total Spin (rpm)"] ∧
    (map_pitchlogic_fields row).horizontal_break =
      firstTruthyVal row ["HB", "Horizontal Break", "Horizontal Movement (in)"] ∧
    (map_pitchlogic_fields row).vertical_break =
      firstTruthyVal row ["VB", "Vertical Break", "Vertical Movement (in)"] ∧
    (map_pitchlogic_fields row).release_height =
      firstTruthyVal row ["RH", "Release Height"] ∧
    (map_pitchlogic_fields row).release_side =
      firstTruthyVal row ["RS", "Release Side"] ∧
    (map_pitchlogic_fields row).gyro_degree =
      firstTruthyVal row ["Gyro", "Rifle Spin (rpm)"] ∧
    (map_pitchlogic_fields row).spin_efficiency =
      firstTruthyVal row ["SpinEff", "Spin Efficiency", "Spin Efficiency (%)"] ∧
    (map_pitchlogic_fields row).release_extension =
      firstTruthyVal row ["Forward Extension (ft)", "Extension"] ∧
    (∀ ks, (∀ k ∈ ks, rowGet row k = none) → firstTruthyVal row ks = none) ∧
    (∀ k ks v, rowGet row k = some v → truthyV v = true →
      firstTruthyVal row (k :: ks) = some v) ∧
    (∀ k k2 ks, optTruthy (rowGet row k) = false →
      firstTruthyVal row (k :: k2 :: ks) = firstTruthyVal row (k2 :: ks)) := by
  refine ⟨rfl, rfl, ?_, ?_, ?_, ?_, rfl, rfl, rfl, ?_, rfl,
    ftv_none row, ftv_first row, ftv_skip row⟩
  · show pyOr (pyOr (rowGet row "Velo") (rowGet row "Speed")) (rowGet row "Speed (mph)") = _
    rw [pyOr_assoc]
    rfl
  · show pyOr (pyOr (pyOr (rowGet row "Spin") (rowGet row "SpinRate"))
        (rowGet row "Spin Rate")) (rowGet row "Total Spin (rpm)") = _
    rw [pyOr_assoc, pyOr_assoc]
    rfl
  · show pyOr (pyOr (rowGet row "HB") (rowGet row "Horizontal Break"))
        (rowGet row "Horizontal Movement (in)") = _
    rw [pyOr_assoc]
    rfl
  · show pyOr (pyOr (rowGet row "VB") (rowGet row "Vertical Break"))
        (rowGet row "Vertical Movement (in)") = _
    rw [pyOr_assoc]
    rfl
  · show pyOr (pyOr (rowGet row "SpinEff") (rowGet row "Spin Efficiency"))
        (rowGet row "Spin Efficiency (%)") = _
    rw [pyOr_assoc]
    rfl

/-- Witness for the amended C5: with `Velocity = 0` and `RelSpeed = 88`
the falsy 0 is skipped and 88 selected; with every alternate absent the
field is no value. -/
theorem mapper_first_truthy_w :
    (map_rapsodo_fields [("Velocity", PyVal.vnum 0), ("RelSpeed", PyVal.vnum 88)]).release_speed =
      firstTruthyVal [("Velocity", PyVal.vnum 0), ("RelSpeed", PyVal.vnum 88)]
        ["Velocity", "RelSpeed"] ∧
    firstTruthyVal [("Velocity", PyVal.vnum 0), ("RelSpeed", PyVal.vnum 88)]
        ["Velocity", "RelSpeed"] =
      firstTruthyVal [("Velocity", PyVal.vnum 0), ("RelSpeed", PyVal.vnum 88)] ["RelSpeed"] ∧
    firstTruthyVal ([] : Row) ["Velocity", "RelSpeed"] = none :=
  ⟨(mapper_first_truthy _).1,
   (mapper_first_truthy _).2.2.2.2.2.2.2.2.2.2.2.2.2 "Velocity" "RelSpeed" [] (by decide),
   (mapper_first_truthy ([] : Row)).2.2.2.2.2.2.2.2.2.2.2.1 ["Velocity", "RelSpeed"]
     (by decide)⟩

/-- One step of the validator subtracts its penalty exactly when its
rule is violated. -/
theorem checkRule_fst (lo hi pen : ℚ) (msg : ℚ → String) (f : Option ℚ)
    (acc : ℚ × List String) :
    (checkRule lo hi pen msg f acc).1 =
      acc.1 - (if fieldViol lo hi f then pen else 0) := by
  cases f with
  | none => simp [checkRule, fieldViol]
  | some v =>
    simp only [checkRule, fieldViol]
    split_ifs <;> simp_all

/-- One step of the validator appends one issue exactly when its rule
is violated. -/
theorem checkRule_len (lo hi pen : ℚ) (msg : ℚ → String) (f : Option ℚ)
    (acc : ℚ × List String) :
    (checkRule lo hi pen msg f acc).2.length =
      acc.2.length + (if fieldViol lo hi f then 1 else 0) := by
  cases f with
  | none => simp [checkRule, fieldViol]
  | some v =>
    simp only [checkRule, fieldViol]
    split_ifs <;> simp_all

/-- The sequentially computed score equals the floored independent sum
of per-rule penalties. -/
theorem validate_score (d : PitchRec) :
    (validate_pitch_data d).1 = max 0 (1 - penaltyOf d) := by
  show max 0 (checkRule 3 8 (1/5) _ d.release_height
    (checkRule 0 360 (1/5) _ d.spin_axis
      (checkRule 500 3500 (3/10) _ d.spin_rate
        (checkRule 40 110 (3/10) _ d.release_speed (1, []))))).1 = _
  rw [checkRule_fst, checkRule_fst, checkRule_fst, checkRule_fst, penaltyOf,
    veloViol, spinViol, axisViol, heightViol]
  exact congrArg (max 0) (by ring)

/-- One issue string is appended per violated rule. -/
theorem validate_count (d : PitchRec) :
    (validate_pitch_data d).2.length = violCount d := by
  show (checkRule 3 8 (1/5) _ d.release_height
    (checkRule 0 360 (1/5) _ d.spin_axis
      (checkRule 500 3500 (3/10) _ d.spin_rate
        (checkRule 40 110 (3/10) _ d.release_speed (1, []))))).2.length = _
  rw [checkRule_len, checkRule_len, checkRule_len, checkRule_len, violCount,
    veloViol, spinViol, axisViol, heightViol]
  simp only [List.length_nil]
  ring

/-- Claim C4: the validator's score is exactly the floor at 0 of 1
minus the independent per-rule penalties (0.3 velocity, 0.3 spin rate,
0.2 spin axis, 0.2 release height), it emits one issue per violation,
absent fields cost nothing, and on the concrete records of the spec: an
in-range record scores 1 with no issues, velocity 200 drops it to 0.7
with one issue, and additionally spin 10 drops it to 0.4 with two
issues.  (Python float arithmetic is modelled exactly; in IEEE doubles
the last score prints as 0.3999999999999999.) -/
theorem validator_spec :
    (∀ d : PitchRec,
      (validate_pitch_data d).1 = max 0 (1 - penaltyOf d) ∧
      (validate_pitch_data d).2.length = violCount d) ∧
    validate_pitch_data ⟨some 75, some 2200, some 180, some 6⟩ = (1, []) ∧
    (validate_pitch_data ⟨some 200, some 2200, some 180, some 6⟩).1 = 7 / 10 ∧
    (validate_pitch_data ⟨some 200, some 2200, some 180, some 6⟩).2.length = 1 ∧
    (validate_pitch_data ⟨some 200, some 10, some 180, some 6⟩).1 = 2 / 5 ∧
    (validate_pitch_data ⟨some 200, some 10, some 180, some 6⟩).2.length = 2 ∧
    validate_pitch_data ⟨none, none, none, none⟩ = (1, []) := by
  refine ⟨fun d => ⟨validate_score d, validate_count d⟩, ?_, ?_, ?_, ?_, ?_, ?_⟩ <;>
    norm_num [validate_pitch_data, checkRule]

/-- Invariant of the insert loop: counters accumulate one per row by
outcome, and the error log extends by the failing rows' messages,
truncated to the remaining space below 10. -/
theorem processLoop_spec (rows : List (Bool × String)) :
    ∀ (st : UploadStats) (idx : Nat), st.errors.length ≤ 10 →
    processLoop st idx rows =
      ⟨st.inserted + rows.countP (·.1), st.skipped + rows.countP (fun r => !r.1),
       st.errors ++ (failList idx rows).take (10 - st.errors.length)⟩ := by
  induction rows with
  | nil =>
    intro st idx _
    simp [processLoop, failList]
  | cons r rs ih =>
    intro st idx h
    show processLoop (processStep st idx r) (idx + 1) rs = _
    cases hr : r.1 with
    | true =>
      have hstep : processStep st idx r =
          ⟨st.inserted + 1, st.skipped, st.errors⟩ := by
        simp [processStep, hr]
      rw [hstep, ih ⟨st.inserted + 1, st.skipped, st.errors⟩ (idx + 1) h]
      simp [List.countP_cons, hr, failList]
      omega
    | false =>
      by_cases hlen : st.errors.length < 10
      · have hstep : processStep st idx r =
            ⟨st.inserted, st.skipped + 1,
             st.errors ++ ["Row " ++ toString (idx + 1) ++ ": " ++ r.2]⟩ := by
          simp [processStep, hr, hlen]
        rw [hstep, ih _ (idx + 1) (by simp; omega)]
        have htake : 10 - st.errors.length = (10 - (st.errors.length + 1)) + 1 := by omega
        simp [List.countP_cons, hr, failList, htake, List.take_succ_cons, List.append_assoc]
        omega
      · have hstep : processStep st idx r =
            ⟨st.inserted, st.skipped + 1, st.errors⟩ := by
          simp [processStep, hr, hlen]
        rw [hstep, ih ⟨st.inserted, st.skipped + 1, st.errors⟩ (idx + 1) h]
        have h10 : st.errors.length = 10 := by omega
        simp [List.countP_cons, hr, failList, h10]
        omega

/-- Failing and succeeding rows partition the row count. -/
theorem countP_split (rows : List (Bool × String)) :
    rows.countP (·.1) + rows.countP (fun r => !r.1) = rows.length := by
  induction rows with
  | nil => rfl
  | cons r rs ih =>
    rw [List.countP_cons, List.countP_cons]
    cases hr : r.1 <;> simp [hr] <;> omega

/-- Claim C6: running the per-pitcher loop over abstracted row outcomes:
each failing row is counted as skipped without stopping the loop, each
succeeding row as inserted, so inserted plus skipped equals the row
count; the error log holds the messages "Row {index+1}: {text}" of the
first at most 10 failing rows, never exceeds 10 entries, and skipping
keeps counting beyond the 10th failure. -/
theorem process_rows_spec (rows : List (Bool × String)) :
    process_pitcher_data rows =
      ⟨rows.countP (·.1), rows.countP (fun r => !r.1), (failList 0 rows).take 10⟩ ∧
    (process_pitcher_data rows).inserted + (process_pitcher_data rows).skipped =
      rows.length ∧
    (process_pitcher_data rows).errors.length ≤ 10 := by
  have h := processLoop_spec rows ⟨0, 0, []⟩ 0 (by simp)
  have h1 : process_pitcher_data rows =
      ⟨rows.countP (·.1), rows.countP (fun r => !r.1), (failList 0 rows).take 10⟩ := by
    rw [process_pitcher_data, h]
    simp
  refine ⟨h1, ?_, ?_⟩
  · rw [h1]
    exact countP_split rows
  · rw [h1]
    exact List.length_take_le 10 _

/-- Claim C10: for detected vendor "Trackman" or "Unknown" the bulk
detector always answers `(false, 1)`, whatever columns or pitcher
values the frame holds — only the PitchLogic and Rapsodo branches ever
report bulk mode. -/
theorem bulk_mode_other_vendors (df : DataFrame) (ds : String)
    (h : ds = "Trackman" ∨ ds = "Unknown") :
    detect_bulk_mode df ds = (false, 1) := by
  rcases h with h | h <;> subst h <;> simp [detect_bulk_mode]

/-- Witness for C10: a frame whose `Pitcher` column holds two distinct
pitchers still reports `(false, 1)` under Trackman. -/
theorem bulk_mode_other_vendors_w :
    detect_bulk_mode ⟨[("Pitcher", [PyVal.vstr "A", PyVal.vstr "B"])]⟩ "Trackman" =
      (false, 1) ∧
    nuniqueVals (dfGet ⟨[("Pitcher", [PyVal.vstr "A", PyVal.vstr "B"])]⟩ "Pitcher") = 2 :=
  ⟨bulk_mode_other_vendors ⟨[("Pitcher", [PyVal.vstr "A", PyVal.vstr "B"])]⟩ "Trackman"
    (Or.inl rfl), by decide⟩
